import Mathlib

/-
Verification of the json-parse validator-combinator library (src/index.ts).

The library validates untyped (dynamic) values against composable validators,
returning either a typed success value or a path-annotated error set.  We give
a shallow embedding: dynamic JavaScript values become the inductive `JsValue`,
a parser becomes a Lean function `Input → ParseResult Output`, and each class
of the source (`Bind`, `Map`, `ParseAt`, `DictParser`, `SimpleDictParser`,
`TransformFunctionResult`, `TypeNarrowingParser`) becomes a definition with the
same name.  Function values carry an identifier that an explicit environment
`env : Nat → List JsValue → JsValue` resolves to call semantics.
-/

namespace JsonParse

/-- `PathElement = number | string` from the source: an array index or a
record key. -/
inductive PathElement where
  | idx (i : Nat)
  | key (k : String)
deriving DecidableEq, Repr

/-- `Path = readonly PathElement[]`. -/
abbrev Path := List PathElement

/-- `class ParseError { path: Path; error: string | ParseErrorAlternatives }`.
The `ParseErrorAlternatives` branch holds a list of `ParseErrors` (each a list
of `ParseError`), modelled by the right summand; no combinator in the source
constructs it. -/
inductive ParseError where
  | mk (path : Path) (error : String ⊕ List (List ParseError))

/-- The `path` field of a `ParseError`. -/
def ParseError.path : ParseError → Path
  | .mk p _ => p

/-- The `error` field of a `ParseError`. -/
def ParseError.error : ParseError → String ⊕ List (List ParseError)
  | .mk _ e => e

/-- `ParseError.prependPath`: `new ParseError([pathElement, ...this.path], this.error)`. -/
def ParseError.prependPath (pathElement : PathElement) : ParseError → ParseError
  | .mk p e => .mk (pathElement :: p) e

/-- `ParseErrors.prependPath`: maps `ParseError.prependPath` over the contained
errors.  The `ParseErrors` wrapper class is modelled as the bare list. -/
def ParseErrors.prependPath (pathElement : PathElement) (errors : List ParseError) :
    List ParseError :=
  errors.map (ParseError.prependPath pathElement)

/-- `ParseResult<O> = Success<O> | ParseErrors`. -/
inductive ParseResult (O : Type) where
  | success (value : O)
  | errors (errors : List ParseError)

/-- `Parser<Output, Input>` reduced to its one abstract operation
`parse : Input → ParseResult Output`. -/
abbrev Parser (Output : Type) (Input : Type) : Type := Input → ParseResult Output

/-- Dynamic JavaScript values (the `unknown` type of the source).  Function
values carry an identifier `fid`; an environment resolves identifiers to
call behaviour. -/
inductive JsValue where
  | vnull
  | vundefined
  | vnum (n : Int)
  | vstr (s : String)
  | vbool (b : Bool)
  | varr (elems : List JsValue)
  | vobj (fields : List (String × JsValue))
  | vfun (fid : Nat)

/-- JavaScript's `typeof` operator on our value model (`typeof null` and
`typeof` of an array are both `"object"`). -/
def typeofJs : JsValue → String
  | .vnull => "object"
  | .vundefined => "undefined"
  | .vnum _ => "number"
  | .vstr _ => "string"
  | .vbool _ => "boolean"
  | .varr _ => "object"
  | .vobj _ => "object"
  | .vfun _ => "function"

/-- JavaScript member access `input[key]` under real semantics.  Access on
`null` or `undefined` throws a TypeError, modelled as `none`.  An object
yields the value at the key, or `undefined` when absent.  An array has its
elements at canonical numeric-string keys and a `length` property; a string
has single-character strings at canonical numeric-string keys and a `length`
property (lengths counted in the model's characters).  Access on the boxed
remaining primitives yields `undefined`, as do properties of function values,
whose built-ins (arity, name) are outside the value model. -/
def jsMember : JsValue → String → Option JsValue
  | .vnull, _ => none
  | .vundefined, _ => none
  | .vobj fields, key =>
    some (match fields.find? (fun kv => kv.1 == key) with
      | some kv => kv.2
      | none => .vundefined)
  | .varr xs, key =>
    some (if key == "length" then .vnum xs.length
      else
        match key.toNat? with
        | some i => if toString i == key then (xs[i]?).getD .vundefined else .vundefined
        | none => .vundefined)
  | .vstr s, key =>
    some (if key == "length" then .vnum s.length
      else
        match key.toNat? with
        | some i =>
          if toString i == key then
            match s.data[i]? with
            | some c => .vstr (String.mk [c])
            | none => .vundefined
          else .vundefined
        | none => .vundefined)
  | .vbool _, _ => some .vundefined
  | .vnum _, _ => some .vundefined
  | .vfun _, _ => some .vundefined

/-- Member access with the throwing cases collapsed to `undefined`: the
exception-free projection of `jsMember`, used by the total model of the
combinators below.  The exception-aware definitions (`ParseAtE` and the other
E-suffixed combinators further down) keep the TypeError outcome instead. -/
def jsGet (v : JsValue) (key : String) : JsValue :=
  (jsMember v key).getD .vundefined

/-- Calling a JS value as a function, resolved through the environment `env`.
Only function values are ever called by the library (behind `asFunction`). -/
def call (env : Nat → List JsValue → JsValue) : JsValue → List JsValue → JsValue
  | .vfun fid, args => env fid args
  | _, _ => .vundefined

/-- `class CustomParser`: wraps an arbitrary function as a parser. -/
def CustomParser (f : Input → ParseResult Output) : Parser Output Input := f

/-- `class Bind`: run `p1`; on failure return its errors unchanged, otherwise
feed the success value to `p2`. -/
def Bind (p1 : Parser M I) (p2 : Parser O M) : Parser O I := fun input =>
  match p1 input with
  | .errors es => .errors es
  | .success x => p2 x

/-- `Parser.bind`: `new Bind(this, p2)`. -/
def Parser.bind (p1 : Parser M I) (p2 : Parser O M) : Parser O I := Bind p1 p2

/-- `Parser.custom`: `this.bind(new CustomParser(f))`. -/
def Parser.custom (p1 : Parser M I) (f : M → ParseResult O) : Parser O I :=
  Bind p1 (CustomParser f)

/-- The element loop of `Map.parse`: `inputs.forEach((input, i) => ...)`
accumulating, in index order, the path-prepended errors of failing elements
and the success values of succeeding elements.  `i` is the index of the head. -/
def mapGo (p : Parser JsValue JsValue) : Nat → List JsValue → List ParseError × List JsValue
  | _, [] => ([], [])
  | i, x :: xs =>
    let rest := mapGo p (i + 1) xs
    match p x with
    | .errors es => (ParseErrors.prependPath (.idx i) es ++ rest.1, rest.2)
    | .success v => (rest.1, v :: rest.2)

/-- The element list a `forEach` over an array value iterates; `Map` is only
ever reached behind `asArray`, so the input is an array value. -/
def elems : JsValue → List JsValue
  | .varr xs => xs
  | _ => []

/-- `class Map`: apply `p` to every element; if any errors were collected
return them all, otherwise return the ordered list of results. -/
def Map (p : Parser JsValue JsValue) : Parser JsValue JsValue := fun inputs =>
  let r := mapGo p 0 (elems inputs)
  if r.1.isEmpty then .success (.varr r.2) else .errors r.1

/-- `class ParseAt`: look up `input[key]`, run `p` on the extracted value, and
return its result (the source's two branches both return `res` unchanged). -/
def ParseAt (key : String) (p : Parser JsValue JsValue) : Parser JsValue JsValue :=
  fun input =>
    let x := jsGet input key
    match p x with
    | .success r => .success r
    | .errors es => .errors es

/-- The field loop of `DictParser.parse`: `Object.keys(parserDict).forEach`
applying each field's parser to the WHOLE input, accumulating path-prepended
errors of failing fields and `(key, value)` entries of succeeding fields, in
mapping iteration order. -/
def dictGo (input : JsValue) :
    List (String × Parser JsValue JsValue) → List ParseError × List (String × JsValue)
  | [] => ([], [])
  | (k, p) :: rest =>
    let r := dictGo input rest
    match p input with
    | .errors es => (ParseErrors.prependPath (.key k) es ++ r.1, r.2)
    | .success v => (r.1, (k, v) :: r.2)

/-- `class DictParser`: run every field parser on the whole input; if any
errors were collected return them all, otherwise return the assembled record. -/
def DictParser (parserDict : List (String × Parser JsValue JsValue)) :
    Parser JsValue JsValue := fun input =>
  let r := dictGo input parserDict
  if r.1.isEmpty then .success (.vobj r.2) else .errors r.1

/-- `SimpleDictParser.transformParserDict`: wrap each field's parser in
`ParseAt` at its own key. -/
def SimpleDictParser.transformParserDict
    (parserDict : List (String × Parser JsValue JsValue)) :
    List (String × Parser JsValue JsValue) :=
  parserDict.map (fun kp => (kp.1, ParseAt kp.1 kp.2))

/-- `class SimpleDictParser`: a `DictParser` over the transformed dictionary. -/
def SimpleDictParser (parserDict : List (String × Parser JsValue JsValue)) :
    Parser JsValue JsValue :=
  DictParser (SimpleDictParser.transformParserDict parserDict)

/-- `class TransformFunctionResult`: always succeeds with a new callable that
calls the original callable and validates its return value with `p`. -/
def TransformFunctionResult (env : Nat → List JsValue → JsValue)
    (p : Parser JsValue JsValue) :
    Parser (List JsValue → ParseResult JsValue) JsValue := fun input =>
  .success (fun xs => p (call env input xs))

/-- `class TypeNarrowingParser`: succeed with the input itself when the check
holds, otherwise a single error with empty path and the typeof-based message. -/
def TypeNarrowingParser (typeName : String) (check : JsValue → Bool) :
    Parser JsValue JsValue := fun x =>
  if check x then
    .success x
  else
    .errors [ParseError.mk []
      (Sum.inl ("expected " ++ typeName ++ " but got " ++ typeofJs x))]

namespace Parsers

/-- `Parsers.asNull`: check `x === null`. -/
def asNull : Parser JsValue JsValue :=
  TypeNarrowingParser "null" (fun x => match x with | .vnull => true | _ => false)

/-- `Parsers.asUndefined`: check `x === undefined`. -/
def asUndefined : Parser JsValue JsValue :=
  TypeNarrowingParser "undefined" (fun x => match x with | .vundefined => true | _ => false)

/-- `Parsers.asNumber`: check `typeof x === "number"`. -/
def asNumber : Parser JsValue JsValue :=
  TypeNarrowingParser "number" (fun x => typeofJs x == "number")

/-- `Parsers.asString`: check `typeof x === "string"`. -/
def asString : Parser JsValue JsValue :=
  TypeNarrowingParser "string" (fun x => typeofJs x == "string")

/-- `Parsers.asArray`: check `Array.isArray(x)`. -/
def asArray : Parser JsValue JsValue :=
  TypeNarrowingParser "array" (fun x => match x with | .varr _ => true | _ => false)

/-- `Parsers.asObject`: check `typeof x === "object"`. -/
def asObject : Parser JsValue JsValue :=
  TypeNarrowingParser "object" (fun x => typeofJs x == "object")

/-- `Parsers.asFunction`: check `typeof x === "function"`. -/
def asFunction : Parser JsValue JsValue :=
  TypeNarrowingParser "function" (fun x => typeofJs x == "function")

/-- `Parsers.parseArray(p) = asArray.bind(new Map(p))`. -/
def parseArray (p : Parser JsValue JsValue) : Parser JsValue JsValue :=
  Bind asArray (Map p)

/-- `Parsers.transformFunctionResult(resultP) = asFunction.bind(new
TransformFunctionResult(resultP))`, with the call environment made explicit. -/
def transformFunctionResult (env : Nat → List JsValue → JsValue)
    (resultP : Parser JsValue JsValue) :
    Parser (List JsValue → ParseResult JsValue) JsValue :=
  Bind asFunction (TransformFunctionResult env resultP)

end Parsers

/-! ### Spec-side descriptions

The following definitions transcribe the specification's wording for the
results of the aggregating combinators, to be compared against the embedded
source code above. -/

/-- Spec wording for the array combinator's failure result, starting at index
`i`: the concatenation, in index order, of each failing element's error set
with that element's index prepended to the front of each error's path. -/
def specArrayErrorsFrom (v : Parser JsValue JsValue) (i : Nat) (xs : List JsValue) :
    List ParseError :=
  (List.enumFrom i xs).flatMap (fun ix =>
    match v ix.2 with
    | .errors es => ParseErrors.prependPath (.idx ix.1) es
    | .success _ => [])

/-- Spec wording for the array combinator's failure result (indices from 0). -/
def specArrayErrors (v : Parser JsValue JsValue) (xs : List JsValue) :
    List ParseError :=
  specArrayErrorsFrom v 0 xs

/-- Spec wording for the record combinator's failure result: the concatenation
of all failing fields' error sets, each error's path prepended with its field
name, in mapping iteration order. -/
def specDictErrors (d : List (String × Parser JsValue JsValue)) (input : JsValue) :
    List ParseError :=
  d.flatMap (fun kp =>
    match kp.2 input with
    | .errors es => ParseErrors.prependPath (.key kp.1) es
    | .success _ => [])

/-- Spec wording for `SimpleDictParser`'s per-field replacement validator:
first look up the candidate's value at key `k`, then apply `p` to that single
extracted value only. -/
def specExtractThen (k : String) (p : Parser JsValue JsValue) :
    Parser JsValue JsValue :=
  fun candidate => p (jsGet candidate k)

/-! ### Helper lemmas -/

theorem specArrayErrorsFrom_cons (v : Parser JsValue JsValue) (i : Nat)
    (x : JsValue) (xs : List JsValue) :
    specArrayErrorsFrom v i (x :: xs)
      = (match v x with
          | .errors es => ParseErrors.prependPath (.idx i) es
          | .success _ => []) ++ specArrayErrorsFrom v (i + 1) xs := by
  simp only [specArrayErrorsFrom, List.enumFrom, List.flatMap_cons]

theorem mapGo_fst (v : Parser JsValue JsValue) :
    ∀ (xs : List JsValue) (i : Nat), (mapGo v i xs).1 = specArrayErrorsFrom v i xs := by
  intro xs
  induction xs with
  | nil => intro i; rfl
  | cons x xs ih =>
    intro i
    rw [specArrayErrorsFrom_cons]
    simp only [mapGo]
    cases h : v x with
    | errors es => simp [h, ih]
    | success y => simp [h, ih]

theorem mapGo_snd_forall₂ (v : Parser JsValue JsValue) :
    ∀ (xs : List JsValue) (i : Nat), (∀ x ∈ xs, ∃ y, v x = .success y) →
      List.Forall₂ (fun x y => v x = .success y) xs (mapGo v i xs).2 := by
  intro xs
  induction xs with
  | nil => intro i _; exact List.Forall₂.nil
  | cons x xs ih =>
    intro i hall
    obtain ⟨y, hy⟩ := hall x (List.mem_cons_self x xs)
    simp only [mapGo, hy]
    exact List.Forall₂.cons hy (ih (i + 1) (fun z hz => hall z (List.mem_cons_of_mem x hz)))

theorem specArrayErrorsFrom_eq_nil (v : Parser JsValue JsValue) :
    ∀ (xs : List JsValue) (i : Nat), (∀ x ∈ xs, ∃ y, v x = .success y) →
      specArrayErrorsFrom v i xs = [] := by
  intro xs
  induction xs with
  | nil => intro i _; rfl
  | cons x xs ih =>
    intro i hall
    obtain ⟨y, hy⟩ := hall x (List.mem_cons_self x xs)
    rw [specArrayErrorsFrom_cons, hy, ih (i + 1) (fun z hz => hall z (List.mem_cons_of_mem x hz))]
    rfl

theorem specArrayErrorsFrom_ne_nil (v : Parser JsValue JsValue) :
    ∀ (xs : List JsValue) (i : Nat),
      (∀ x ∈ xs, ∀ es, v x = .errors es → es ≠ []) →
      (∃ x ∈ xs, ∃ es, v x = .errors es) →
      specArrayErrorsFrom v i xs ≠ [] := by
  intro xs
  induction xs with
  | nil => intro i _ hex; obtain ⟨x, hx, _⟩ := hex; exact absurd hx (List.not_mem_nil x)
  | cons x xs ih =>
    intro i hv hex
    rw [specArrayErrorsFrom_cons]
    intro hnil
    rw [List.append_eq_nil] at hnil
    obtain ⟨z, hz, es, hes⟩ := hex
    rcases List.mem_cons.mp hz with hzx | hzxs
    · subst hzx
      rw [hes] at hnil
      have : es ≠ [] := hv z (List.mem_cons_self z xs) es hes
      have h1 := hnil.1
      simp only [ParseErrors.prependPath, List.map_eq_nil_iff] at h1
      exact this h1
    · exact ih (i + 1) (fun w hw => hv w (List.mem_cons_of_mem x hw))
        ⟨z, hzxs, es, hes⟩ hnil.2

theorem dictGo_fst (input : JsValue) :
    ∀ d : List (String × Parser JsValue JsValue),
      (dictGo input d).1 = specDictErrors d input := by
  intro d
  induction d with
  | nil => rfl
  | cons kp rest ih =>
    obtain ⟨k, p⟩ := kp
    simp only [dictGo, specDictErrors, List.flatMap_cons]
    cases h : p input with
    | errors es => simp [h, ih, specDictErrors]
    | success v => simp [h, ih, specDictErrors]

theorem dictGo_snd_forall₂ (input : JsValue) :
    ∀ d : List (String × Parser JsValue JsValue),
      (∀ kp ∈ d, ∃ v, kp.2 input = .success v) →
      List.Forall₂ (fun kp kv => kp.1 = kv.1 ∧ kp.2 input = .success kv.2)
        d (dictGo input d).2 := by
  intro d
  induction d with
  | nil => intro _; exact List.Forall₂.nil
  | cons kp rest ih =>
    intro hall
    obtain ⟨k, p⟩ := kp
    obtain ⟨v, hv⟩ := hall (k, p) (List.mem_cons_self (k, p) rest)
    simp only at hv
    simp only [dictGo, hv]
    exact List.Forall₂.cons ⟨rfl, hv⟩ (ih (fun z hz => hall z (List.mem_cons_of_mem (k, p) hz)))

theorem specDictErrors_eq_nil (input : JsValue) :
    ∀ d : List (String × Parser JsValue JsValue),
      (∀ kp ∈ d, ∃ v, kp.2 input = .success v) →
      specDictErrors d input = [] := by
  intro d
  induction d with
  | nil => intro _; rfl
  | cons kp rest ih =>
    intro hall
    obtain ⟨v, hv⟩ := hall kp (List.mem_cons_self kp rest)
    simp only [specDictErrors, List.flatMap_cons, hv]
    exact ih (fun z hz => hall z (List.mem_cons_of_mem kp hz))

theorem specDictErrors_ne_nil (input : JsValue) :
    ∀ d : List (String × Parser JsValue JsValue),
      (∀ kp ∈ d, ∀ es, kp.2 input = .errors es → es ≠ []) →
      (∃ kp ∈ d, ∃ es, kp.2 input = .errors es) →
      specDictErrors d input ≠ [] := by
  intro d
  induction d with
  | nil => intro _ hex; obtain ⟨kp, hkp, _⟩ := hex; exact absurd hkp (List.not_mem_nil kp)
  | cons kp rest ih =>
    intro hv hex
    simp only [specDictErrors, List.flatMap_cons]
    intro hnil
    rw [List.append_eq_nil] at hnil
    obtain ⟨z, hz, es, hes⟩ := hex
    rcases List.mem_cons.mp hz with hzk | hzrest
    · subst hzk
      rw [hes] at hnil
      have hne : es ≠ [] := hv z (List.mem_cons_self z rest) es hes
      have h1 := hnil.1
      simp only [ParseErrors.prependPath, List.map_eq_nil_iff] at h1
      exact hne h1
    · exact ih (fun w hw => hv w (List.mem_cons_of_mem kp hw)) ⟨z, hzrest, es, hes⟩ hnil.2

theorem ParseAt_eq (k : String) (p : Parser JsValue JsValue) (input : JsValue) :
    ParseAt k p input = p (jsGet input k) := by
  cases h : p (jsGet input k) <;> simp [ParseAt, h]

/-! ### Claim theorems -/

/-- C1: the validator `SimpleDictParser {list: parseArray (SimpleDictParser
{x: asNumber})}` applied to `{list: [{x: 1}, {x: "bad"}]}` yields exactly one
error, with path `["list", 1, "x"]` (root-to-leaf) and message
`expected number but got string`. -/
theorem c1_nested_path_accumulation :
    SimpleDictParser [("list", Parsers.parseArray (SimpleDictParser [("x", Parsers.asNumber)]))]
      (JsValue.vobj [("list", JsValue.varr
        [JsValue.vobj [("x", JsValue.vnum 1)], JsValue.vobj [("x", JsValue.vstr "bad")]])])
    = ParseResult.errors [ParseError.mk
        [PathElement.key "list", PathElement.idx 1, PathElement.key "x"]
        (Sum.inl "expected number but got string")] := rfl

/-- C3: when `p1` fails on `x`, the composition `Bind p1 p2` returns `p1`'s
error set unchanged, for every second stage `p2` (so the result never depends
on `p2`, i.e. `p2` is never invoked). -/
theorem c3_bind_short_circuit {I M : Type} (p1 : Parser M I) (x : I)
    (es : List ParseError) (h : p1 x = .errors es) :
    ∀ (O : Type) (p2 : Parser O M), Bind p1 p2 x = ParseResult.errors es := by
  intro O p2
  simp [Bind, h]

/-- Witness for C3 at `p1 = asNumber`, `p2 = asString`, `x = "a"`. -/
theorem c3_bind_short_circuit_witness :
    Bind Parsers.asNumber Parsers.asString (JsValue.vstr "a")
      = ParseResult.errors [ParseError.mk [] (Sum.inl "expected number but got string")] :=
  c3_bind_short_circuit Parsers.asNumber (JsValue.vstr "a")
    [ParseError.mk [] (Sum.inl "expected number but got string")] rfl JsValue Parsers.asString

/-- C5: `SimpleDictParser d` behaves identically to `DictParser` over the
mapping that replaces each field validator `p` at key `k` by the validator
that looks up the candidate's value at key `k` and applies `p` to that single
extracted value only. -/
theorem c5_simpleDict_eq_dict_extract (d : List (String × Parser JsValue JsValue))
    (input : JsValue) :
    SimpleDictParser d input
      = DictParser (d.map (fun kp => (kp.1, specExtractThen kp.1 kp.2))) input := by
  have hgo : ∀ d' : List (String × Parser JsValue JsValue),
      dictGo input (SimpleDictParser.transformParserDict d')
        = dictGo input (d'.map (fun kp => (kp.1, specExtractThen kp.1 kp.2))) := by
    intro d'
    induction d' with
    | nil => rfl
    | cons kp rest ih =>
      obtain ⟨k, p⟩ := kp
      simp only [SimpleDictParser.transformParserDict, List.map_cons, dictGo] at *
      rw [ih, ParseAt_eq]
      rfl
  simp only [SimpleDictParser, DictParser, hgo d]

/-- C6: a leaf validator returns `Success x` with `x` itself when the
predicate accepts `x`, and otherwise exactly one error with empty path and
message `"expected " ++ typeName ++ " but got " ++ typeofJs x`. -/
theorem c6_leaf_behavior (typeName : String) (check : JsValue → Bool) (x : JsValue) :
    (check x = true → TypeNarrowingParser typeName check x = ParseResult.success x)
    ∧ (check x = false → TypeNarrowingParser typeName check x
        = ParseResult.errors [ParseError.mk []
            (Sum.inl ("expected " ++ typeName ++ " but got " ++ typeofJs x))]) := by
  constructor <;> intro h <;> simp [TypeNarrowingParser, h]

/-- Witness for C6 at `asNumber` with accepted input `42` and rejected
input `"5"`. -/
theorem c6_leaf_behavior_witness :
    Parsers.asNumber (JsValue.vnum 42) = ParseResult.success (JsValue.vnum 42)
    ∧ Parsers.asNumber (JsValue.vstr "5")
      = ParseResult.errors [ParseError.mk [] (Sum.inl "expected number but got string")] :=
  ⟨(c6_leaf_behavior "number" (fun x => typeofJs x == "number") (JsValue.vnum 42)).1 rfl,
   (c6_leaf_behavior "number" (fun x => typeofJs x == "number") (JsValue.vstr "5")).2 rfl⟩

/-- C7: `bind` composition is associative: `bind(bind(a,b),c)` behaves
identically to `bind(a,bind(b,c))` on every input. -/
theorem c7_bind_assoc {I M N O : Type} (a : Parser M I) (b : Parser N M)
    (c : Parser O N) (x : I) :
    Bind (Bind a b) c x = Bind a (Bind b c) x := by
  simp only [Bind]
  cases a x <;> rfl

/-- C9: the function-result transform, applied to a callable, succeeds with a
new callable that calls the original and validates the returned value; in
particular with `asNumber`, a call returning `5` yields `Success 5` and a call
returning `"5"` yields the single error `expected number but got string`. -/
theorem c9_transformFunctionResult_spec :
    (∀ (env : Nat → List JsValue → JsValue) (r : Parser JsValue JsValue) (fid : Nat),
      Parsers.transformFunctionResult env r (JsValue.vfun fid)
        = ParseResult.success (fun xs => r (env fid xs)))
    ∧ (∃ g, Parsers.transformFunctionResult (fun _ _ => JsValue.vnum 5)
          Parsers.asNumber (JsValue.vfun 0) = ParseResult.success g
        ∧ g [] = ParseResult.success (JsValue.vnum 5))
    ∧ (∃ g, Parsers.transformFunctionResult (fun _ _ => JsValue.vstr "5")
          Parsers.asNumber (JsValue.vfun 0) = ParseResult.success g
        ∧ g [] = ParseResult.errors
            [ParseError.mk [] (Sum.inl "expected number but got string")]) :=
  ⟨fun _ _ _ => rfl, ⟨_, rfl, rfl⟩, ⟨_, rfl, rfl⟩⟩

/-- C10: `asObject` accepts `null`, since `typeof null` is `"object"` in
JavaScript. -/
theorem c10_asObject_accepts_null :
    Parsers.asObject JsValue.vnull = ParseResult.success JsValue.vnull := rfl

/-- C2: for an element validator `v` (whose failures carry non-empty error
sets, the result-model invariant) on an array input `xs`: if every element
succeeds, the result is `Success` of the ordered sequence of all element
outputs with the same length and order as `xs`; if at least one element fails,
the result is the concatenation, in index order, of each failing element's
error set with that element's index prepended to each error's path, and no
success value is returned. -/
theorem c2_parseArray_spec (v : Parser JsValue JsValue) (xs : List JsValue)
    (hv : ∀ x ∈ xs, ∀ es, v x = .errors es → es ≠ []) :
    ((∀ x ∈ xs, ∃ y, v x = .success y) →
      ∃ ys, List.Forall₂ (fun x y => v x = .success y) xs ys
        ∧ ys.length = xs.length
        ∧ Parsers.parseArray v (.varr xs) = ParseResult.success (.varr ys))
    ∧ ((∃ x ∈ xs, ∃ es, v x = .errors es) →
      Parsers.parseArray v (.varr xs) = ParseResult.errors (specArrayErrors v xs)
        ∧ specArrayErrors v xs ≠ []) := by
  have hmap : Parsers.parseArray v (.varr xs)
      = (if ((mapGo v 0 xs).1).isEmpty
          then ParseResult.success (.varr (mapGo v 0 xs).2)
          else ParseResult.errors (mapGo v 0 xs).1) := rfl
  constructor
  · intro hall
    refine ⟨(mapGo v 0 xs).2, mapGo_snd_forall₂ v xs 0 hall, ?_, ?_⟩
    · exact (List.Forall₂.length_eq (mapGo_snd_forall₂ v xs 0 hall)).symm
    · have h1 : (mapGo v 0 xs).1 = [] := by
        rw [mapGo_fst]
        exact specArrayErrorsFrom_eq_nil v xs 0 hall
      rw [hmap, h1]
      rfl
  · intro hex
    have hne : specArrayErrors v xs ≠ [] := specArrayErrorsFrom_ne_nil v xs 0 hv hex
    have h1 : (mapGo v 0 xs).1 = specArrayErrors v xs := mapGo_fst v xs 0
    refine ⟨?_, hne⟩
    rw [hmap, h1]
    cases hcase : specArrayErrors v xs with
    | nil => exact absurd hcase hne
    | cons e es => simp

/-- Witness for C2: `parseArray asNumber` on `[1, "bad"]` fails with the
spec-described concatenated error set. -/
theorem c2_parseArray_spec_witness :
    Parsers.parseArray Parsers.asNumber (.varr [.vnum 1, .vstr "bad"])
      = ParseResult.errors (specArrayErrors Parsers.asNumber [.vnum 1, .vstr "bad"])
    ∧ specArrayErrors Parsers.asNumber [.vnum 1, .vstr "bad"] ≠ [] :=
  (c2_parseArray_spec Parsers.asNumber [JsValue.vnum 1, JsValue.vstr "bad"]
    (by
      intro x hx es hes
      rcases List.mem_cons.mp hx with rfl | hx2
      · simp [Parsers.asNumber, TypeNarrowingParser, typeofJs] at hes
      · rcases List.mem_cons.mp hx2 with rfl | hx3
        · simp [Parsers.asNumber, TypeNarrowingParser, typeofJs] at hes
          simp [← hes]
        · exact absurd hx3 (List.not_mem_nil x))).2
    ⟨JsValue.vstr "bad", by simp,
     [ParseError.mk [] (Sum.inl "expected number but got string")], rfl⟩

/-- C4: every field validator of `DictParser d` is applied to the entire
candidate input (not the value at its own key); assuming the result-model
invariant for the fields, the parse fails iff some field fails, in which case
the result is the concatenation of all failing fields' error sets with the
field name prepended, in mapping iteration order; on total success the result
is an object with exactly the mapping's keys, each bound to its field's
success value, in mapping iteration order. -/
theorem c4_dictParser_spec (d : List (String × Parser JsValue JsValue)) (input : JsValue)
    (hv : ∀ kp ∈ d, ∀ es, kp.2 input = .errors es → es ≠ []) :
    ((∀ kp ∈ d, ∃ v, kp.2 input = .success v) →
      ∃ vs, List.Forall₂ (fun kp kv => kp.1 = kv.1 ∧ kp.2 input = .success kv.2) d vs
        ∧ DictParser d input = ParseResult.success (.vobj vs))
    ∧ ((∃ kp ∈ d, ∃ es, kp.2 input = .errors es) →
      DictParser d input = ParseResult.errors (specDictErrors d input)
        ∧ specDictErrors d input ≠ []) := by
  have hd : DictParser d input
      = (if ((dictGo input d).1).isEmpty
          then ParseResult.success (.vobj (dictGo input d).2)
          else ParseResult.errors (dictGo input d).1) := rfl
  constructor
  · intro hall
    refine ⟨(dictGo input d).2, dictGo_snd_forall₂ input d hall, ?_⟩
    have h1 : (dictGo input d).1 = [] := by
      rw [dictGo_fst]
      exact specDictErrors_eq_nil input d hall
    rw [hd, h1]
    rfl
  · intro hex
    have hne : specDictErrors d input ≠ [] := specDictErrors_ne_nil input d hv hex
    have h1 : (dictGo input d).1 = specDictErrors d input := dictGo_fst input d
    refine ⟨?_, hne⟩
    rw [hd, h1]
    cases hcase : specDictErrors d input with
    | nil => exact absurd hcase hne
    | cons e es => simp

/-- Witness for C4: the mapping `{a: asNumber}` applied to the candidate
`"oops"` (the field validator sees the whole candidate) fails with the
spec-described error set. -/
theorem c4_dictParser_spec_witness :
    DictParser [("a", Parsers.asNumber)] (JsValue.vstr "oops")
      = ParseResult.errors (specDictErrors [("a", Parsers.asNumber)] (JsValue.vstr "oops"))
    ∧ specDictErrors [("a", Parsers.asNumber)] (JsValue.vstr "oops") ≠ [] :=
  (c4_dictParser_spec [("a", Parsers.asNumber)] (JsValue.vstr "oops")
    (by
      intro kp hkp es hes
      rcases List.mem_cons.mp hkp with rfl | hk2
      · simp [Parsers.asNumber, TypeNarrowingParser, typeofJs] at hes
        simp [← hes]
      · exact absurd hk2 (List.not_mem_nil kp))).2
    ⟨("a", Parsers.asNumber), by simp,
     [ParseError.mk [] (Sum.inl "expected number but got string")], rfl⟩

/-! ### C8: exception-aware semantics

Under real JavaScript evaluation, member access `input[key]` on `null` or
`undefined` throws a TypeError that no combinator catches, so a parse
invocation has a third possible outcome beside `Success` and an error set.
The E-suffixed definitions below re-embed the same source classes with the
thrown outcome tracked. -/

/-- The outcome of a parse invocation under real JavaScript evaluation:
either a thrown TypeError propagates out of the call, or a `ParseResult` is
returned. -/
inductive JsOutcome (O : Type) where
  | typeError
  | returns (r : ParseResult O)

/-- A parser under exception-aware semantics. -/
abbrev ParserE (Output : Type) (Input : Type) : Type := Input → JsOutcome Output

/-- `TypeNarrowingParser.parse` performs no member access, so it never
throws: it returns exactly what the total model returns. -/
def TypeNarrowingParserE (typeName : String) (check : JsValue → Bool) :
    ParserE JsValue JsValue := fun x =>
  .returns (TypeNarrowingParser typeName check x)

/-- `Bind.parse` under exception-aware semantics: a TypeError thrown by
either stage propagates; otherwise exactly as `Bind`. -/
def BindE (p1 : ParserE M I) (p2 : ParserE O M) : ParserE O I := fun input =>
  match p1 input with
  | .typeError => .typeError
  | .returns (.errors es) => .returns (.errors es)
  | .returns (.success x) => p2 x

/-- `ParseAt.parse` under exception-aware semantics: `input[this.key]`
throws a TypeError when the input is `null` or `undefined`; otherwise run
`p` on the extracted value and return its outcome (the source's two result
branches both return `res` unchanged). -/
def ParseAtE (key : String) (p : ParserE JsValue JsValue) : ParserE JsValue JsValue :=
  fun input =>
    match jsMember input key with
    | none => .typeError
    | some x =>
      match p x with
      | .typeError => .typeError
      | .returns (.success r) => .returns (.success r)
      | .returns (.errors es) => .returns (.errors es)

/-- The field loop of `DictParser.parse` under exception-aware semantics: a
TypeError thrown by a field's parser propagates out of the `forEach`
immediately; otherwise failing fields' errors are accumulated path-prepended
and succeeding fields' entries collected, in mapping iteration order. -/
def dictGoE (input : JsValue) :
    List (String × ParserE JsValue JsValue) →
      Option (List ParseError × List (String × JsValue))
  | [] => some ([], [])
  | (k, p) :: rest =>
    match p input with
    | .typeError => none
    | .returns (.errors es) =>
      match dictGoE input rest with
      | none => none
      | some r => some (ParseErrors.prependPath (.key k) es ++ r.1, r.2)
    | .returns (.success v) =>
      match dictGoE input rest with
      | none => none
      | some r => some (r.1, (k, v) :: r.2)

/-- `DictParser.parse` under exception-aware semantics. -/
def DictParserE (parserDict : List (String × ParserE JsValue JsValue)) :
    ParserE JsValue JsValue := fun input =>
  match dictGoE input parserDict with
  | none => .typeError
  | some r =>
    .returns (if r.1.isEmpty then .success (.vobj r.2) else .errors r.1)

/-- `SimpleDictParser.transformParserDict` under exception-aware semantics. -/
def transformParserDictE (parserDict : List (String × ParserE JsValue JsValue)) :
    List (String × ParserE JsValue JsValue) :=
  parserDict.map (fun kp => (kp.1, ParseAtE kp.1 kp.2))

/-- `SimpleDictParser` under exception-aware semantics. -/
def SimpleDictParserE (parserDict : List (String × ParserE JsValue JsValue)) :
    ParserE JsValue JsValue :=
  DictParserE (transformParserDictE parserDict)

/-- The element loop of `Map.parse` under exception-aware semantics: a
TypeError thrown by the element parser propagates out of the `forEach`
immediately. -/
def mapGoE (p : ParserE JsValue JsValue) :
    Nat → List JsValue → Option (List ParseError × List JsValue)
  | _, [] => some ([], [])
  | i, x :: xs =>
    match p x with
    | .typeError => none
    | .returns (.errors es) =>
      match mapGoE p (i + 1) xs with
      | none => none
      | some rest => some (ParseErrors.prependPath (.idx i) es ++ rest.1, rest.2)
    | .returns (.success v) =>
      match mapGoE p (i + 1) xs with
      | none => none
      | some rest => some (rest.1, v :: rest.2)

/-- `Map.parse` under exception-aware semantics. -/
def MapE (p : ParserE JsValue JsValue) : ParserE JsValue JsValue := fun inputs =>
  match mapGoE p 0 (elems inputs) with
  | none => .typeError
  | some r =>
    .returns (if r.1.isEmpty then .success (.varr r.2) else .errors r.1)

/-- `TransformFunctionResult.parse` under exception-aware semantics: it only
builds a closure, so the parse itself never throws; the wrapped callable's
per-invocation outcome tracks the result validator's outcome. -/
def TransformFunctionResultE (env : Nat → List JsValue → JsValue)
    (p : ParserE JsValue JsValue) :
    ParserE (List JsValue → JsOutcome JsValue) JsValue := fun input =>
  .returns (.success (fun xs => p (call env input xs)))

namespace ParsersE

/-- `Parsers.asNumber` under exception-aware semantics. -/
def asNumber : ParserE JsValue JsValue :=
  TypeNarrowingParserE "number" (fun x => typeofJs x == "number")

/-- `Parsers.asArray` under exception-aware semantics. -/
def asArray : ParserE JsValue JsValue :=
  TypeNarrowingParserE "array" (fun x => match x with | .varr _ => true | _ => false)

/-- `Parsers.asObject` under exception-aware semantics. -/
def asObject : ParserE JsValue JsValue :=
  TypeNarrowingParserE "object" (fun x => typeofJs x == "object")

/-- `Parsers.asFunction` under exception-aware semantics. -/
def asFunction : ParserE JsValue JsValue :=
  TypeNarrowingParserE "function" (fun x => typeofJs x == "function")

/-- `Parsers.parseArray` under exception-aware semantics. -/
def parseArray (p : ParserE JsValue JsValue) : ParserE JsValue JsValue :=
  BindE asArray (MapE p)

/-- `Parsers.transformFunctionResult` under exception-aware semantics. -/
def transformFunctionResult (env : Nat → List JsValue → JsValue)
    (resultP : ParserE JsValue JsValue) :
    ParserE (List JsValue → JsOutcome JsValue) JsValue :=
  BindE asFunction (TransformFunctionResultE env resultP)

end ParsersE

/-- The validators built from the core constructs of the library, under
exception-aware semantics: leaves, sequential composition, the array
combinator, the record combinators and the function-result transform. -/
inductive CoreE : {I O : Type} → ParserE O I → Prop where
  | leaf (typeName : String) (check : JsValue → Bool) :
      CoreE (TypeNarrowingParserE typeName check)
  | bindC {I M O : Type} {p1 : ParserE M I} {p2 : ParserE O M} :
      CoreE p1 → CoreE p2 → CoreE (BindE p1 p2)
  | array {p : ParserE JsValue JsValue} : CoreE p → CoreE (ParsersE.parseArray p)
  | dict {d : List (String × ParserE JsValue JsValue)} :
      (∀ kp ∈ d, CoreE kp.2) → CoreE (DictParserE d)
  | simpleDict {d : List (String × ParserE JsValue JsValue)} :
      (∀ kp ∈ d, CoreE kp.2) → CoreE (SimpleDictParserE d)
  | functionResult (env : Nat → List JsValue → JsValue) {p : ParserE JsValue JsValue} :
      CoreE p → CoreE (ParsersE.transformFunctionResult env p)

theorem leafE_trichotomy (typeName : String) (check : JsValue → Bool) (x : JsValue) :
    TypeNarrowingParserE typeName check x = .typeError
    ∨ (∃ v, TypeNarrowingParserE typeName check x = .returns (.success v))
    ∨ (∃ es, TypeNarrowingParserE typeName check x = .returns (.errors es) ∧ es ≠ []) := by
  by_cases h : check x
  · exact Or.inr (Or.inl ⟨x, by simp [TypeNarrowingParserE, TypeNarrowingParser, h]⟩)
  · exact Or.inr (Or.inr ⟨[ParseError.mk []
        (Sum.inl ("expected " ++ typeName ++ " but got " ++ typeofJs x))],
      by simp [TypeNarrowingParserE, TypeNarrowingParser, h], by simp⟩)

theorem bindE_trichotomy {I M O : Type} {p1 : ParserE M I} {p2 : ParserE O M}
    (h1 : ∀ x, p1 x = .typeError ∨ (∃ v, p1 x = .returns (.success v))
      ∨ (∃ es, p1 x = .returns (.errors es) ∧ es ≠ []))
    (h2 : ∀ y, p2 y = .typeError ∨ (∃ v, p2 y = .returns (.success v))
      ∨ (∃ es, p2 y = .returns (.errors es) ∧ es ≠ []))
    (x : I) :
    BindE p1 p2 x = .typeError ∨ (∃ v, BindE p1 p2 x = .returns (.success v))
      ∨ (∃ es, BindE p1 p2 x = .returns (.errors es) ∧ es ≠ []) := by
  rcases h1 x with h | ⟨v, hv⟩ | ⟨es, hes, hne⟩
  · exact Or.inl (by simp [BindE, h])
  · rcases h2 v with h2e | ⟨w, hw⟩ | ⟨es, hes, hne⟩
    · exact Or.inl (by simp [BindE, hv, h2e])
    · exact Or.inr (Or.inl ⟨w, by simp [BindE, hv, hw]⟩)
    · exact Or.inr (Or.inr ⟨es, by simp [BindE, hv, hes], hne⟩)
  · exact Or.inr (Or.inr ⟨es, by simp [BindE, hes], hne⟩)

theorem mapE_trichotomy (p : ParserE JsValue JsValue) (x : JsValue) :
    MapE p x = .typeError ∨ (∃ v, MapE p x = .returns (.success v))
      ∨ (∃ es, MapE p x = .returns (.errors es) ∧ es ≠ []) := by
  cases hgo : mapGoE p 0 (elems x) with
  | none => exact Or.inl (by simp [MapE, hgo])
  | some r =>
    cases hr : r.1 with
    | nil => exact Or.inr (Or.inl ⟨.varr r.2, by simp [MapE, hgo, hr]⟩)
    | cons e es => exact Or.inr (Or.inr ⟨e :: es, by simp [MapE, hgo, hr], by simp⟩)

theorem dictE_trichotomy (d : List (String × ParserE JsValue JsValue)) (x : JsValue) :
    DictParserE d x = .typeError ∨ (∃ v, DictParserE d x = .returns (.success v))
      ∨ (∃ es, DictParserE d x = .returns (.errors es) ∧ es ≠ []) := by
  cases hgo : dictGoE x d with
  | none => exact Or.inl (by simp [DictParserE, hgo])
  | some r =>
    cases hr : r.1 with
    | nil => exact Or.inr (Or.inl ⟨.vobj r.2, by simp [DictParserE, hgo, hr]⟩)
    | cons e es => exact Or.inr (Or.inr ⟨e :: es, by simp [DictParserE, hgo, hr], by simp⟩)

/-- C8 counterexample: `asObject.bind(new SimpleDictParser({a: asNumber}))`
is type-correct and built only from core constructs (leaf, bind, record
combinator), yet its parse invocation on `null` propagates the TypeError
thrown by `null["a"]` — an outcome that is neither a `Success` value nor an
error set, refuting the claim as stated. -/
theorem c8_counterexample_typeError :
    BindE ParsersE.asObject (SimpleDictParserE [("a", ParsersE.asNumber)]) JsValue.vnull
      = JsOutcome.typeError := rfl

/-- C8 (amended): every parse invocation of every validator built from the
core (leaves, bind, array combinator, record combinators, function-result
transform) yields exactly one of: a propagated TypeError, a `Success` value,
or an error set whose list of errors is non-empty; no exception is used to
signal validation failure (failures are the error-set variant). -/
theorem c8_coreE_result_trichotomy {I O : Type} (p : ParserE O I) (hp : CoreE p) :
    ∀ x, p x = .typeError ∨ (∃ v, p x = .returns (.success v))
      ∨ (∃ es, p x = .returns (.errors es) ∧ es ≠ []) := by
  induction hp with
  | leaf typeName check => exact leafE_trichotomy typeName check
  | bindC h1 h2 ih1 ih2 => exact bindE_trichotomy ih1 ih2
  | array hcore ih =>
    exact fun x => bindE_trichotomy (leafE_trichotomy "array" _) (mapE_trichotomy _) x
  | dict hall ih => exact dictE_trichotomy _
  | simpleDict hall ih => exact dictE_trichotomy _
  | functionResult env hcore ih =>
    exact fun x => bindE_trichotomy (leafE_trichotomy "function" _)
      (fun y => Or.inr (Or.inl ⟨_, rfl⟩)) x

/-- Witness for the amended C8 at the core validator `asNumber` on
input `"a"`. -/
theorem c8_coreE_result_trichotomy_witness :
    ParsersE.asNumber (JsValue.vstr "a") = .typeError
    ∨ (∃ v, ParsersE.asNumber (JsValue.vstr "a") = .returns (.success v))
    ∨ (∃ es, ParsersE.asNumber (JsValue.vstr "a") = .returns (.errors es) ∧ es ≠ []) :=
  c8_coreE_result_trichotomy ParsersE.asNumber
    (CoreE.leaf "number" (fun x => typeofJs x == "number")) (JsValue.vstr "a")

end JsonParse
